import Mathlib

/-!
Shallow embedding of the sage-dev installation engine
(`src/sage_dev/installer.py`, `src/sage_dev/constants.py`, and the
multi-target loop of `src/sage_dev/cli.py`).

The filesystem is modelled explicitly: a snapshot records the current
working directory, the user home, the set of existing directories, the
regular files (directory, base name, content), and the set of directories
in which creating entries fails with a permission error.  Every operation
that can raise in Python is modelled as returning `Res α × FS`: the
outcome (normal value or escaped exception) together with the filesystem
state at the moment the operation finished or the exception escaped —
matching Python semantics, where side effects performed before a raise
persist.
-/

namespace SageDev

/-- A filesystem path, as the list of its components from the root. -/
abbrev Path := List String

/-- A regular file: the directory holding it, its base name, and its
content (abstracted to a natural number). -/
structure FileEntry where
  dir : Path
  name : String
  content : Nat
  deriving DecidableEq

/-- A filesystem snapshot.  `unwritable` lists the directories in which
creating a child entry fails with a permission error (modelling an
unwritable directory / full disk). -/
structure FS where
  cwd : Path
  home : Path
  dirs : List Path
  files : List FileEntry
  unwritable : List Path
  deriving DecidableEq

/-- `Path.exists()` for a directory path. -/
def dirExists (fs : FS) (p : Path) : Bool := fs.dirs.any (fun q => decide (q = p))

/-- `Path.exists()` for a regular file given as directory plus base name. -/
def fileExists (fs : FS) (d : Path) (n : String) : Bool :=
  fs.files.any (fun f => decide (f.dir = d) && decide (f.name = n))

/-- Look up the file entry at `d / n`, if any. -/
def findFile (fs : FS) (d : Path) (n : String) : Option FileEntry :=
  fs.files.find? (fun f => decide (f.dir = d) && decide (f.name = n))

/-- `q` is a direct child directory of `p`. -/
def isChildDir (p q : Path) : Bool :=
  decide (q.length = p.length + 1) && decide (q.take p.length = p)

/-- `any(p.iterdir())`: the directory `p` has at least one child entry. -/
def hasChild (fs : FS) (p : Path) : Bool :=
  fs.files.any (fun f => decide (f.dir = p)) || fs.dirs.any (fun q => isChildDir p q)

/-- A directory child as seen by `Path.glob`: a regular file or a
subdirectory. -/
inductive Entry where
  | file (name : String) (content : Nat)
  | dirE (name : String)
  deriving DecidableEq

def entryName : Entry → String
  | .file n _ => n
  | .dirE n => n

def isFileEntry : Entry → Bool
  | .file _ _ => true
  | .dirE _ => false

/-- All direct children of `d` (files and subdirectories). -/
def childEntries (fs : FS) (d : Path) : List Entry :=
  (fs.files.filter (fun f => decide (f.dir = d))).map (fun f => Entry.file f.name f.content)
    ++ fs.dirs.filterMap (fun q =>
        if isChildDir d q then some (Entry.dirE (q.getD d.length "")) else none)

/-- Interpretation of the glob patterns that occur in the code.  The only
pattern the installer uses is `"*.md"`: a leading `*` matches any leading
character sequence of the base name, so the pattern holds of a name iff
the remainder is a suffix of it; a pattern without a leading `*` matches
only itself. -/
def matchGlob (pat : String) (name : String) : Bool :=
  match pat.data with
  | '*' :: rest => rest.isSuffixOf name.data
  | other => decide (name.data = other)

/-- `d.glob(pat)`: the children of `d` whose base name matches `pat`. -/
def globList (fs : FS) (d : Path) (pat : String) : List Entry :=
  (childEntries fs d).filter (fun e => matchGlob pat (entryName e))

/-- Outcome of a Python operation: a normal value, or an exception that
escaped (carrying its kind). -/
inductive Res (α : Type) where
  | ok : α → Res α
  | exn : String → Res α
  deriving DecidableEq

/-- Sequencing of state-threading fallible operations: if the first step
raised, the exception propagates with the state it left behind. -/
def andThen {α β : Type} : Res α × FS → (α → FS → Res β × FS) → Res β × FS
  | (.ok a, fs), k => k a fs
  | (.exn e, fs), _ => (.exn e, fs)

/-- Create one directory (`exist_ok` semantics): nothing happens when it
already exists; creating a missing directory fails when its parent is
unwritable. -/
def mkdirOne (fs : FS) (p : Path) : Res Unit × FS :=
  if dirExists fs p then (.ok (), fs)
  else if fs.unwritable.any (fun q => decide (q = p.dropLast)) then (.exn "PermissionError", fs)
  else (.ok (), ⟨fs.cwd, fs.home, fs.dirs ++ [p], fs.files, fs.unwritable⟩)

/-- The nonempty prefixes of a path, shortest first. -/
def pathPrefixes (p : Path) : List Path := (List.range p.length).map (fun i => p.take (i + 1))

def mkdirSeq (fs : FS) (ps : List Path) : Res Unit × FS :=
  match ps with
  | [] => (.ok (), fs)
  | q :: rest => andThen (mkdirOne fs q) (fun _ fs1 => mkdirSeq fs1 rest)

/-- `p.mkdir(parents=True, exist_ok=True)`: create every missing prefix of
`p`, shortest first. -/
def mkdirParents (fs : FS) (p : Path) : Res Unit × FS := mkdirSeq fs (pathPrefixes p)

def removeFile (files : List FileEntry) (d : Path) (n : String) : List FileEntry :=
  files.filter (fun g => !(decide (g.dir = d) && decide (g.name = n)))

/-- `shutil.copy2(srcDir/srcName, dstDir/dstName)`: overwrite any existing
file of the destination name; fails when the destination directory is
unwritable. -/
def copy2 (fs : FS) (srcDir : Path) (srcName : String) (dstDir : Path) (dstName : String) :
    Res Unit × FS :=
  match findFile fs srcDir srcName with
  | none => (.exn "FileNotFoundError", fs)
  | some f =>
    if fs.unwritable.any (fun q => decide (q = dstDir)) then (.exn "PermissionError", fs)
    else (.ok (), ⟨fs.cwd, fs.home, fs.dirs,
      removeFile fs.files dstDir dstName ++ [⟨dstDir, dstName, f.content⟩], fs.unwritable⟩)

/-- `p.take base.length = base`: `p` lies inside the subtree rooted at
`base` (including `base` itself). -/
def isUnder (base p : Path) : Bool := decide (p.take base.length = base)

def rebase (base dst p : Path) : Path := dst ++ p.drop base.length

/-- `shutil.copytree(src, dst)`: full recursive copy of the subtree rooted
at `src` to a fresh `dst`; fails when `dst` already exists or when the
parent of `dst` is unwritable. -/
def copytree (fs : FS) (src dst : Path) : Res Unit × FS :=
  if dirExists fs dst || fileExists fs dst.dropLast (dst.getLastD "") then
    (.exn "FileExistsError", fs)
  else if fs.unwritable.any (fun q => decide (q = dst.dropLast)) then
    (.exn "PermissionError", fs)
  else
    (.ok (), ⟨fs.cwd, fs.home,
      fs.dirs ++ fs.dirs.filterMap (fun q =>
        if isUnder src q then some (rebase src dst q) else none),
      fs.files ++ fs.files.filterMap (fun f =>
        if isUnder src f.dir then some ⟨rebase src dst f.dir, f.name, f.content⟩ else none),
      fs.unwritable⟩)

/-- A wall-clock instant as `datetime.now()` exposes it (the fields the
format string `"%Y%m%d-%H%M%S"` reads). -/
structure Timestamp where
  year : Nat
  month : Nat
  day : Nat
  hour : Nat
  minute : Nat
  second : Nat
  deriving DecidableEq

def digitChar (n : Nat) : Char := Char.ofNat (48 + n)

/-- The last `w` decimal digits of `n`, zero padded, most significant
first.  For the in-range field values `datetime` produces (year ≤ 9999,
the other fields two-digit) this is exactly `strftime` zero padding. -/
def padDigits : Nat → Nat → List Char
  | 0, _ => []
  | w + 1, n => digitChar (n / 10 ^ w) :: padDigits w (n % 10 ^ w)

/-- `datetime.now().strftime("%Y%m%d-%H%M%S")`. -/
def strftimeYmdHMS (t : Timestamp) : String :=
  ⟨padDigits 4 t.year ++ padDigits 2 t.month ++ padDigits 2 t.day ++ ['-']
    ++ padDigits 2 t.hour ++ padDigits 2 t.minute ++ padDigits 2 t.second⟩

/-- The base name `f"{target_dir.name}.backup.{timestamp}"`. -/
def backupName (p : Path) (now : Timestamp) : String :=
  p.getLastD "" ++ ".backup." ++ strftimeYmdHMS now

/-- `backup_existing_files` of `installer.py`: no backup when the target
directory is missing or empty; otherwise a recursive copy to the sibling
`<name>.backup.<timestamp>` directory. -/
def backup_existing_files (fs : FS) (targetDir : Path) (now : Timestamp) :
    Res (Option Path) × FS :=
  if !dirExists fs targetDir || !hasChild fs targetDir then (.ok none, fs)
  else
    andThen (copytree fs targetDir (targetDir.dropLast ++ [backupName targetDir now]))
      (fun _ fs1 => (.ok (some (targetDir.dropLast ++ [backupName targetDir now])), fs1))

def copyLoop (fs : FS) (srcDir tgtDir : Path) (es : List Entry) (acc : Nat) : Res Nat × FS :=
  match es with
  | [] => (.ok acc, fs)
  | .dirE _ :: rest => copyLoop fs srcDir tgtDir rest acc
  | .file n _ :: rest =>
    andThen (copy2 fs srcDir n tgtDir n) (fun _ fs1 => copyLoop fs1 srcDir tgtDir rest (acc + 1))

/-- `copy_files` of `installer.py`: return 0 when the source directory is
missing; otherwise create the target directory (with parents) and copy
every globbed regular file, counting the copies. -/
def copy_files (fs : FS) (sourceDir targetDir : Path) (pat : String) : Res Nat × FS :=
  if !dirExists fs sourceDir then (.ok 0, fs)
  else andThen (mkdirParents fs targetDir) (fun _ fs1 =>
    copyLoop fs1 sourceDir targetDir (globList fs1 sourceDir pat) 0)

/-- `get_source_dirs` of `installer.py` (`get_script_dir` is `Path.cwd()`). -/
def get_source_dirs (fs : FS) : Path × Path × Path :=
  (fs.cwd ++ ["commands"], fs.cwd ++ ["agents"], fs.cwd ++ ["rules"])

/-- One category count: `len(list(d.glob("*.md"))) if d.exists() else 0`.
Note the code counts every glob match, directories included. -/
def mdCount (fs : FS) (d : Path) : Nat :=
  if dirExists fs d then (globList fs d "*.md").length else 0

/-- `count_files` of `installer.py`. -/
def count_files (fs : FS) (language : String) : Nat × Nat × Nat × Nat :=
  (mdCount fs (fs.cwd ++ ["commands"]),
   mdCount fs (fs.cwd ++ ["agents", "shared"]),
   mdCount fs (fs.cwd ++ ["agents", language]),
   mdCount fs (fs.cwd ++ ["rules"]))

/-- `AGENT_DIRS` of `constants.py`. -/
def AGENT_DIRS (fs : FS) : List (String × Path) :=
  [("claude-code", fs.home ++ [".claude", "commands"]),
   ("opencode", fs.home ++ [".config", "opencode", "commands"]),
   ("droid", fs.home ++ [".factory", "commands"])]

/-- `AGENT_AGENT_DIRS` of `constants.py`. -/
def AGENT_AGENT_DIRS (fs : FS) : List (String × Path) :=
  [("claude-code", fs.home ++ [".claude", "agents"]),
   ("opencode", fs.home ++ [".config", "opencode", "agent"]),
   ("droid", fs.home ++ [".factory", "agents"])]

/-- `AGENT_RULES_DIRS` of `constants.py`. -/
def AGENT_RULES_DIRS (fs : FS) : List (String × Path) :=
  [("claude-code", fs.home ++ [".claude", "rules"]),
   ("opencode", fs.home ++ [".config", "opencode", "rules"]),
   ("droid", fs.home ++ [".factory", "rules"])]

def lookupDir (l : List (String × Path)) (k : String) : Option Path :=
  match l with
  | [] => none
  | (a, p) :: rest => if a = k then some p else lookupDir rest k

/-- Rendering of a path as Python's `str(Path)` for an absolute path. -/
def pathStr (p : Path) : String := p.foldl (fun acc c => acc ++ "/" ++ c) ""

/-- The `InstallationResult` dataclass of `installer.py`. -/
structure InstallationResult where
  commands_installed : Nat
  agents_installed : Nat
  rules_installed : Nat
  success : Bool
  errors : List String
  deriving DecidableEq

/-- The `show_warning` message of a count-reconciliation mismatch. -/
def mismatchWarning (category : String) (expected actual : Nat) : String :=
  category ++ ": Expected " ++ toString expected ++ " files, but installed " ++ toString actual

/-- The body of `install_to_agent` after the three target directories have
been resolved.  Returns the result paired with the reconciliation
warnings the run printed. -/
def installCore (fs : FS) (commandsTarget agentsTarget rulesTarget : Path)
    (language : String) (now : Timestamp) : Res (InstallationResult × List String) × FS :=
  let (commandsDir, agentsDir, rulesDir) := get_source_dirs fs
  if !dirExists fs commandsDir then
    (.ok (⟨0, 0, 0, false, ["Commands directory not found: " ++ pathStr commandsDir]⟩, []), fs)
  else
    andThen (mkdirParents fs commandsTarget) (fun _ fs1 =>
    andThen (mkdirParents fs1 agentsTarget) (fun _ fs2 =>
    andThen (mkdirParents fs2 rulesTarget) (fun _ fs3 =>
    andThen (backup_existing_files fs3 commandsTarget now) (fun _ fs4 =>
    andThen (copy_files fs4 commandsDir commandsTarget "*.md") (fun commandsInstalled fs5 =>
    andThen (if dirExists fs5 (agentsDir ++ ["shared"]) then
        copy_files fs5 (agentsDir ++ ["shared"]) agentsTarget "*.md" else (.ok 0, fs5))
      (fun sharedCount fs6 =>
    andThen (if dirExists fs6 (agentsDir ++ [language]) then
        copy_files fs6 (agentsDir ++ [language]) agentsTarget "*.md" else (.ok 0, fs6))
      (fun langCount fs7 =>
    andThen (if fileExists fs7 agentsDir "index.json" then
        copy2 fs7 agentsDir "index.json" agentsTarget "index.json" else (.ok (), fs7))
      (fun _ fs8 =>
    andThen (copy_files fs8 rulesDir rulesTarget "*.md") (fun rulesInstalled fs9 =>
      let agentsInstalled := sharedCount + langCount
      let counts := count_files fs9 language
      let warnings :=
        (if commandsInstalled ≠ counts.1 then
          [mismatchWarning "Commands" counts.1 commandsInstalled] else [])
        ++ (if agentsInstalled ≠ counts.2.1 + counts.2.2.1 then
          [mismatchWarning "Agents" (counts.2.1 + counts.2.2.1) agentsInstalled] else [])
        ++ (if rulesInstalled ≠ counts.2.2.2 then
          [mismatchWarning "Rules" counts.2.2.2 rulesInstalled] else [])
      let errors : List String := []
      (.ok (⟨commandsInstalled, agentsInstalled, rulesInstalled,
        errors.length == 0, errors⟩, warnings), fs9))))))))))

/-- `install_to_agent` of `installer.py`.  An unknown agent key raises
`KeyError` at the `AGENT_DIRS[agent]` lookup. -/
def install_to_agent (fs : FS) (agent language : String) (now : Timestamp) :
    Res (InstallationResult × List String) × FS :=
  match lookupDir (AGENT_DIRS fs) agent, lookupDir (AGENT_AGENT_DIRS fs) agent,
      lookupDir (AGENT_RULES_DIRS fs) agent with
  | some ct, some at1, some rt => installCore fs ct at1 rt language now
  | _, _, _ => (.exn "KeyError", fs)

/-- The multi-target loop of `cli.py` (`for agent_name in detected_agents:
install_to_agent(agent_name, selected_language)`).  The loop wraps each
call in no handler, so an escaped exception propagates; the per-target
results (which the CLI discards) are collected here for observation. -/
def installAllDetected (fs : FS) (agents : List String) (language : String) (now : Timestamp) :
    Res (List (String × InstallationResult)) × FS :=
  match agents with
  | [] => (.ok [], fs)
  | a :: rest =>
    andThen (install_to_agent fs a language now) (fun rw fs1 =>
    andThen (installAllDetected fs1 rest language now) (fun results fs2 =>
      (.ok ((a, rw.1) :: results), fs2)))

/-! ### Concrete filesystem snapshots used as test inputs -/

/-- A fixed instant for runs that need a clock. -/
def tsS : Timestamp := ⟨2025, 1, 2, 3, 4, 5⟩

/-- Build markdown file entries (content 0) for a directory. -/
def mdFiles (d : Path) (names : List String) : List FileEntry :=
  names.map (fun n => ⟨d, n, 0⟩)

/-- Source catalog with 5 commands, 3 shared agents, 4 python agents,
2 rules and the registry file; target side empty. -/
def fsC3 : FS :=
  ⟨["repo"], ["home"],
   [["repo"], ["repo", "commands"], ["repo", "agents"], ["repo", "agents", "shared"],
    ["repo", "agents", "python"], ["repo", "rules"], ["home"]],
   mdFiles ["repo", "commands"] ["c1.md", "c2.md", "c3.md", "c4.md", "c5.md"]
     ++ mdFiles ["repo", "agents", "shared"] ["s1.md", "s2.md", "s3.md"]
     ++ mdFiles ["repo", "agents", "python"] ["p1.md", "p2.md", "p3.md", "p4.md"]
     ++ mdFiles ["repo", "rules"] ["r1.md", "r2.md"]
     ++ [⟨["repo", "agents"], "index.json", 7⟩],
   []⟩

/-- Like `fsC3` but the source commands directory also holds a
subdirectory named `bogus.md`: globbed (hence counted) but not a regular
file, so it is never copied — a realizable reconciliation mismatch. -/
def fsC4 : FS :=
  ⟨["repo"], ["home"],
   [["repo"], ["repo", "commands"], ["repo", "commands", "bogus.md"], ["repo", "agents"],
    ["repo", "agents", "shared"], ["repo", "agents", "python"], ["repo", "rules"], ["home"]],
   mdFiles ["repo", "commands"] ["c1.md", "c2.md", "c3.md", "c4.md", "c5.md"]
     ++ mdFiles ["repo", "agents", "shared"] ["s1.md", "s2.md", "s3.md"]
     ++ mdFiles ["repo", "agents", "python"] ["p1.md", "p2.md", "p3.md", "p4.md"]
     ++ mdFiles ["repo", "rules"] ["r1.md", "r2.md"]
     ++ [⟨["repo", "agents"], "index.json", 7⟩],
   []⟩

/-- Two-target scenario: the claude-code agents directory exists but is
unwritable; everything the droid target needs is healthy. -/
def fsC1 : FS :=
  ⟨["repo"], ["home"],
   [["repo"], ["repo", "commands"], ["repo", "agents"], ["repo", "agents", "shared"],
    ["home"], ["home", ".claude"], ["home", ".claude", "agents"]],
   [⟨["repo", "commands"], "c1.md", 0⟩, ⟨["repo", "agents", "shared"], "a1.md", 0⟩],
   [["home", ".claude", "agents"]]⟩

/-- Target whose commands directory is non-empty while its parent
(`~/.claude`) is unwritable, so creating the backup directory fails. -/
def fsC2 : FS :=
  ⟨["repo"], ["home"],
   [["repo"], ["repo", "commands"], ["home"], ["home", ".claude"],
    ["home", ".claude", "commands"], ["home", ".claude", "agents"],
    ["home", ".claude", "rules"]],
   [⟨["repo", "commands"], "c1.md", 0⟩, ⟨["home", ".claude", "commands"], "old.md", 5⟩],
   [["home", ".claude"]]⟩

/-- Snapshot with no source commands directory at all. -/
def fsC7 : FS := ⟨["repo"], ["home"], [["home"]], [], []⟩

/-- State left behind when installing to claude-code over `fsC1` raises. -/
def fsC1x : FS := (install_to_agent fsC1 "claude-code" "python" tsS).2

/-- The regular files of directory `d` whose base name matches `pat`,
read off the snapshot's file list. -/
def srcMatching (fs : FS) (d : Path) (pat : String) : List FileEntry :=
  (fs.files.filter (fun f => decide (f.dir = d))).filter (fun f => matchGlob pat f.name)

/-- The regular files among the glob results of `d` — exactly what the
copy loop of `copy_files` copies. -/
def matchingFiles (fs : FS) (d : Path) (pat : String) : List Entry :=
  (globList fs d pat).filter isFileEntry

/-- The file `t / n` exists with content `c` and no stale entry with
another content survives for that name — the outcome of a completed
overwriting copy. -/
def copiedOK (fs : FS) (t : Path) (n : String) (c : Nat) : Prop :=
  (⟨t, n, c⟩ : FileEntry) ∈ fs.files ∧
    ∀ g ∈ fs.files, g.dir = t → g.name = n → g.content = c

/-- State after the witness `copy_files` run over `fsC3`. -/
def fsC6x : FS := (copy_files fsC3 ["repo", "commands"] ["home", "t"] "*.md").2

/-- The field ranges `datetime.now()` can produce (year at most four
digits, every other field two digits). -/
abbrev validTs (t : Timestamp) : Prop :=
  t.year < 10000 ∧ t.month < 100 ∧ t.day < 100 ∧ t.hour < 100 ∧ t.minute < 100 ∧
    t.second < 100

/-- Chronological key of a timestamp: later instants get larger keys. -/
def tsKey (t : Timestamp) : Nat :=
  ((((t.year * 100 + t.month) * 100 + t.day) * 100 + t.hour) * 100 + t.minute) * 100 +
    t.second

/-- A second fixed instant, one second after `tsS`. -/
def tsT : Timestamp := ⟨2025, 1, 2, 3, 4, 6⟩

/-- The backup path the witness backup run produces. -/
def bC5 : Path := ["repo", "commands.backup.20250102-030405"]

/-- State after the witness backup run over `fsC3`. -/
def fsC5x : FS := (backup_existing_files fsC3 ["repo", "commands"] tsS).2


/-! ### Helper lemmas -/

theorem andThen_eq_ok {α β : Type} (x : Res α × FS) (k : α → FS → Res β × FS) (b : β) (fs' : FS)
    (h : andThen x k = (.ok b, fs')) :
    ∃ a fsm, x = (.ok a, fsm) ∧ k a fsm = (.ok b, fs') := by
  rcases x with ⟨ra, fsm⟩
  cases ra with
  | ok a => exact ⟨a, fsm, rfl, h⟩
  | exn e => simp [andThen] at h

theorem mkdirOne_files (fs : FS) (p : Path) : (mkdirOne fs p).2.files = fs.files := by
  rw [mkdirOne]
  split
  · rfl
  · split
    · rfl
    · rfl

theorem mkdirSeq_files (ps : List Path) : ∀ fs : FS, (mkdirSeq fs ps).2.files = fs.files := by
  induction ps with
  | nil => intro fs; rfl
  | cons q rest ih =>
    intro fs
    have hf := mkdirOne_files fs q
    rcases hm : mkdirOne fs q with ⟨rm, fsm⟩
    rw [hm] at hf
    cases rm with
    | ok u =>
      show (andThen (mkdirOne fs q) (fun _ fs1 => mkdirSeq fs1 rest)).2.files = fs.files
      rw [hm]
      show (mkdirSeq fsm rest).2.files = fs.files
      rw [ih fsm, hf]
    | exn e =>
      show (andThen (mkdirOne fs q) (fun _ fs1 => mkdirSeq fs1 rest)).2.files = fs.files
      rw [hm]
      exact hf

theorem mkdirParents_files (fs : FS) (p : Path) : (mkdirParents fs p).2.files = fs.files :=
  mkdirSeq_files _ _

theorem copytree_exn_frame (fs : FS) (src dst : Path) (e : String) (fs' : FS)
    (h : copytree fs src dst = (.exn e, fs')) : fs' = fs := by
  rw [copytree] at h
  split at h
  · simp only [Prod.mk.injEq] at h
    exact h.2.symm
  · split at h
    · simp only [Prod.mk.injEq] at h
      exact h.2.symm
    · simp at h

theorem backup_exn_frame (fs : FS) (p : Path) (now : Timestamp) (e : String) (fs' : FS)
    (h : backup_existing_files fs p now = (.exn e, fs')) : fs' = fs := by
  rw [backup_existing_files] at h
  split at h
  · simp at h
  · rcases hc : copytree fs p (p.dropLast ++ [backupName p now]) with ⟨rc, fsc⟩
    rw [hc] at h
    cases rc with
    | ok u => simp [andThen] at h
    | exn e2 =>
      have hfs := copytree_exn_frame fs p _ e2 fsc hc
      simp only [andThen, Prod.mk.injEq] at h
      rw [← h.2]
      exact hfs

/-- Any `.ok` outcome of `installCore` has `success` true exactly when the
error list is empty: the early return carries `false` with a non-empty
list, the final return computes `success` from an empty list. -/
theorem installCore_ok_success_iff (fs : FS) (ct at1 rt : Path) (language : String)
    (now : Timestamp) (r : InstallationResult) (w : List String) (fs' : FS)
    (h : installCore fs ct at1 rt language now = (.ok (r, w), fs')) :
    (r.success = true ↔ r.errors = []) := by
  rw [installCore] at h
  simp only [get_source_dirs] at h
  split at h
  · simp only [Prod.mk.injEq, Res.ok.injEq] at h
    rw [← h.1.1]
    simp
  · obtain ⟨u1, fs1, -, h⟩ := andThen_eq_ok _ _ _ _ h
    obtain ⟨u2, fs2, -, h⟩ := andThen_eq_ok _ _ _ _ h
    obtain ⟨u3, fs3, -, h⟩ := andThen_eq_ok _ _ _ _ h
    obtain ⟨u4, fs4, -, h⟩ := andThen_eq_ok _ _ _ _ h
    obtain ⟨c5, fs5, -, h⟩ := andThen_eq_ok _ _ _ _ h
    obtain ⟨c6, fs6, -, h⟩ := andThen_eq_ok _ _ _ _ h
    obtain ⟨c7, fs7, -, h⟩ := andThen_eq_ok _ _ _ _ h
    obtain ⟨u8, fs8, -, h⟩ := andThen_eq_ok _ _ _ _ h
    obtain ⟨c9, fs9, -, h⟩ := andThen_eq_ok _ _ _ _ h
    simp only [Prod.mk.injEq, Res.ok.injEq] at h
    rw [← h.1.1]
    simp

theorem matchingFiles_eq (fs : FS) (d : Path) (pat : String) :
    matchingFiles fs d pat = (srcMatching fs d pat).map (fun f => Entry.file f.name f.content) := by
  unfold matchingFiles globList childEntries srcMatching
  rw [List.filter_append, List.filter_append]
  have hB : ((fs.dirs.filterMap (fun q =>
      if isChildDir d q then some (Entry.dirE (q.getD d.length "")) else none)).filter
        (fun e => matchGlob pat (entryName e))).filter isFileEntry = [] := by
    rw [List.filter_eq_nil_iff]
    intro e he
    obtain ⟨p, -, hp⟩ := List.mem_filterMap.mp (List.mem_filter.mp he).1
    by_cases hc : isChildDir d p = true
    · rw [if_pos hc] at hp
      cases hp
      simp [isFileEntry]
    · rw [if_neg hc] at hp
      cases hp
  rw [hB, List.append_nil, List.filter_map, List.filter_map]
  simp [Function.comp, entryName, isFileEntry]

theorem copy2_dirs (fs : FS) (sd : Path) (sn : String) (td : Path) (tn : String) :
    (copy2 fs sd sn td tn).2.dirs = fs.dirs := by
  rw [copy2]
  rcases findFile fs sd sn with - | f
  · rfl
  · dsimp only
    split
    · rfl
    · rfl

theorem copy2_exn_frame (fs : FS) (sd : Path) (sn : String) (td : Path) (tn : String)
    (e : String) (fs' : FS) (h : copy2 fs sd sn td tn = (.exn e, fs')) : fs' = fs := by
  rw [copy2] at h
  split at h
  · simp only [Prod.mk.injEq] at h
    exact h.2.symm
  · split at h
    · simp only [Prod.mk.injEq] at h
      exact h.2.symm
    · simp at h

theorem copy2_ok_files (fs : FS) (sd : Path) (sn : String) (td : Path) (tn : String)
    (fs' : FS) (f : FileEntry) (hf : findFile fs sd sn = some f)
    (h : copy2 fs sd sn td tn = (.ok (), fs')) :
    fs'.files = removeFile fs.files td tn ++ [⟨td, tn, f.content⟩] := by
  rw [copy2] at h
  split at h
  · rename_i heq
    rw [hf] at heq
    cases heq
  · rename_i g heq
    rw [hf] at heq
    cases heq
    split at h
    · simp at h
    · simp only [Prod.mk.injEq] at h
      rw [← h.2]

theorem find?_removeFile_append (l : List FileEntry) (s t : Path) (hst : s ≠ t)
    (tn : String) (en : FileEntry) (hen : en.dir = t) (n : String) :
    (removeFile l t tn ++ [en]).find?
        (fun f => decide (f.dir = s) && decide (f.name = n)) =
      l.find? (fun f => decide (f.dir = s) && decide (f.name = n)) := by
  have hpe : (decide (en.dir = s) && decide (en.name = n)) = false := by
    have hns : ¬ en.dir = s := by rw [hen]; exact fun h => hst h.symm
    simp [hns]
  induction l with
  | nil =>
    simp only [removeFile, List.filter_nil, List.nil_append, List.find?_cons, hpe,
      List.find?_nil]
  | cons g l ih =>
    by_cases hg : (decide (g.dir = t) && decide (g.name = tn)) = true
    · have hgt : g.dir = t := by
        have hg2 := hg
        simp only [Bool.and_eq_true, decide_eq_true_eq] at hg2
        exact hg2.1
      have hpg : (decide (g.dir = s) && decide (g.name = n)) = false := by
        have hns : ¬ g.dir = s := by rw [hgt]; exact fun h => hst h.symm
        simp [hns]
      simp only [removeFile, List.filter_cons, hg, Bool.not_true, Bool.false_eq_true,
        if_false, List.find?_cons, hpg]
      exact ih
    · have hg2 : (decide (g.dir = t) && decide (g.name = tn)) = false :=
        Bool.not_eq_true _ ▸ hg
      simp only [removeFile, List.filter_cons, hg2, Bool.not_false, if_true]
      cases hpg : (decide (g.dir = s) && decide (g.name = n)) with
      | true =>
        simp only [List.cons_append, List.find?_cons, hpg]
      | false =>
        simp only [List.cons_append, List.find?_cons, hpg]
        exact ih

theorem findFile_after_copy2 (fs : FS) (s : Path) (sn : String) (t : Path) (tn : String)
    (hst : s ≠ t) (fs1 : FS) (h : copy2 fs s sn t tn = (.ok (), fs1)) (n : String) :
    findFile fs1 s n = findFile fs s n := by
  rcases hff : findFile fs s sn with - | f
  · rw [copy2] at h
    split at h
    · simp at h
    · rename_i g heq
      rw [hff] at heq
      cases heq
  · have hfiles := copy2_ok_files fs s sn t tn fs1 f hff h
    show fs1.files.find? _ = fs.files.find? _
    rw [hfiles]
    exact find?_removeFile_append fs.files s t hst tn _ rfl n

theorem copy2_establishes (fs : FS) (sd : Path) (sn : String) (t : Path) (tn : String)
    (fs1 : FS) (f : FileEntry) (hf : findFile fs sd sn = some f)
    (h : copy2 fs sd sn t tn = (.ok (), fs1)) : copiedOK fs1 t tn f.content := by
  have hfiles := copy2_ok_files fs sd sn t tn fs1 f hf h
  constructor
  · rw [hfiles]
    exact List.mem_append_right _ (List.mem_singleton.mpr rfl)
  · intro g hg hgd hgn
    rw [hfiles] at hg
    rcases List.mem_append.mp hg with hg1 | hg1
    · have := (List.mem_filter.mp hg1).2
      simp [hgd, hgn] at this
    · rw [List.mem_singleton.mp hg1]

theorem copiedOK_after_copy2 (fs : FS) (sd : Path) (sn : String) (t : Path) (tn : String)
    (fs1 : FS) (h : copy2 fs sd sn t tn = (.ok (), fs1)) (n : String) (c : Nat)
    (hn : n ≠ tn) (hc : copiedOK fs t n c) : copiedOK fs1 t n c := by
  rcases hff : findFile fs sd sn with - | f
  · rw [copy2] at h
    split at h
    · simp at h
    · rename_i g heq
      rw [hff] at heq
      cases heq
  · have hfiles := copy2_ok_files fs sd sn t tn fs1 f hff h
    constructor
    · rw [hfiles]
      refine List.mem_append_left _ (List.mem_filter.mpr ⟨hc.1, ?_⟩)
      simp [hn]
    · intro g hg hgd hgn
      rw [hfiles] at hg
      rcases List.mem_append.mp hg with hg1 | hg1
      · exact hc.2 g (List.mem_filter.mp hg1).1 hgd hgn
      · rw [List.mem_singleton.mp hg1] at hgn
        exact absurd hgn.symm hn

theorem copyLoop_preserves_copiedOK (s t : Path) (n : String) (c : Nat) :
    ∀ (es : List Entry) (fs : FS) (acc : Nat),
      (∀ cont : Nat, ¬ Entry.file n cont ∈ es) →
      copiedOK fs t n c →
      copiedOK (copyLoop fs s t es acc).2 t n c := by
  intro es
  induction es with
  | nil => intro fs acc _ hc; exact hc
  | cons e rest ih =>
    intro fs acc hmem hc
    cases e with
    | dirE d0 =>
      exact ih fs acc (fun cont hm => hmem cont (List.mem_cons_of_mem _ hm)) hc
    | file n0 c0 =>
      have hne : n ≠ n0 := by
        intro he
        exact hmem c0 (he ▸ List.mem_cons_self _ _)
      show copiedOK
        (andThen (copy2 fs s n0 t n0) (fun _ fs1 => copyLoop fs1 s t rest (acc + 1))).2 t n c
      rcases hcp : copy2 fs s n0 t n0 with ⟨rc, fsc⟩
      cases rc with
      | ok u =>
        show copiedOK (copyLoop fsc s t rest (acc + 1)).2 t n c
        exact ih fsc (acc + 1)
          (fun cont hm => hmem cont (List.mem_cons_of_mem _ hm))
          (copiedOK_after_copy2 fs s n0 t n0 fsc hcp n c hne hc)
      | exn e2 =>
        have := copy2_exn_frame fs s n0 t n0 e2 fsc hcp
        show copiedOK fsc t n c
        rw [this]
        exact hc

theorem copyLoop_dirs (s t : Path) :
    ∀ (es : List Entry) (fs : FS) (acc : Nat), (copyLoop fs s t es acc).2.dirs = fs.dirs := by
  intro es
  induction es with
  | nil => intro fs acc; rfl
  | cons e rest ih =>
    intro fs acc
    cases e with
    | dirE d0 => exact ih fs acc
    | file n0 c0 =>
      show (andThen (copy2 fs s n0 t n0) (fun _ fs1 => copyLoop fs1 s t rest (acc + 1))).2.dirs
        = fs.dirs
      have hd := copy2_dirs fs s n0 t n0
      rcases hcp : copy2 fs s n0 t n0 with ⟨rc, fsc⟩
      rw [hcp] at hd
      cases rc with
      | ok u =>
        show (copyLoop fsc s t rest (acc + 1)).2.dirs = fs.dirs
        rw [ih fsc (acc + 1)]
        exact hd
      | exn e2 => exact hd

theorem copyLoop_count (s t : Path) :
    ∀ (es : List Entry) (fs : FS) (acc c : Nat) (fs' : FS),
      copyLoop fs s t es acc = (.ok c, fs') →
      c = acc + (es.filter isFileEntry).length := by
  intro es
  induction es with
  | nil =>
    intro fs acc c fs' h
    simp only [copyLoop, Prod.mk.injEq, Res.ok.injEq] at h
    simp [← h.1]
  | cons e rest ih =>
    intro fs acc c fs' h
    cases e with
    | dirE d0 =>
      have := ih fs acc c fs' h
      simpa [List.filter_cons, isFileEntry] using this
    | file n0 c0 =>
      rw [show copyLoop fs s t (Entry.file n0 c0 :: rest) acc =
        andThen (copy2 fs s n0 t n0) (fun _ fs1 => copyLoop fs1 s t rest (acc + 1)) from rfl] at h
      obtain ⟨u, fsm, -, h⟩ := andThen_eq_ok _ _ _ _ h
      have := ih fsm (acc + 1) c fs' h
      simp only [List.filter_cons, isFileEntry, if_true, List.length_cons]
      omega

theorem copyLoop_copies (s t : Path) (hst : s ≠ t) :
    ∀ (es : List Entry) (fs : FS) (acc c : Nat) (fs' : FS),
      copyLoop fs s t es acc = (.ok c, fs') →
      ((es.filter isFileEntry).map entryName).Nodup →
      (∀ n cont, Entry.file n cont ∈ es → findFile fs s n = some ⟨s, n, cont⟩) →
      ∀ n cont, Entry.file n cont ∈ es → copiedOK fs' t n cont := by
  intro es
  induction es with
  | nil => intro fs acc c fs' h hnd hsrc n cont hm; cases hm
  | cons e rest ih =>
    intro fs acc c fs' h hnd hsrc n cont hm
    cases e with
    | dirE d0 =>
      have hm' : Entry.file n cont ∈ rest := by
        rcases List.mem_cons.mp hm with h1 | h1
        · cases h1
        · exact h1
      have hnd' : ((rest.filter isFileEntry).map entryName).Nodup := by
        simpa [List.filter_cons, isFileEntry] using hnd
      exact ih fs acc c fs' h hnd'
        (fun n' c' hm2 => hsrc n' c' (List.mem_cons_of_mem _ hm2)) n cont hm'
    | file n0 c0 =>
      rw [show copyLoop fs s t (Entry.file n0 c0 :: rest) acc =
        andThen (copy2 fs s n0 t n0) (fun _ fs1 => copyLoop fs1 s t rest (acc + 1))
        from rfl] at h
      obtain ⟨u, fsm, hcp, hloop⟩ := andThen_eq_ok _ _ _ _ h
      have hcpu : copy2 fs s n0 t n0 = (.ok (), fsm) := by cases u; exact hcp
      have hff0 : findFile fs s n0 = some ⟨s, n0, c0⟩ := hsrc n0 c0 (List.mem_cons_self _ _)
      have hnd2 : ¬ n0 ∈ (rest.filter isFileEntry).map entryName ∧
          ((rest.filter isFileEntry).map entryName).Nodup := by
        have h2 := hnd
        simp only [List.filter_cons, isFileEntry, if_true, List.map_cons, entryName,
          List.nodup_cons] at h2
        exact h2
      have hfindm : ∀ n', findFile fsm s n' = findFile fs s n' :=
        findFile_after_copy2 fs s n0 t n0 hst fsm hcpu
      rcases List.mem_cons.mp hm with h1 | h1
      · injection h1 with e1 e2
        subst e1
        subst e2
        have hco : copiedOK fsm t n cont :=
          copy2_establishes fs s n t n fsm ⟨s, n, cont⟩ hff0 hcpu
        have hnomem : ∀ cont' : Nat, ¬ Entry.file n cont' ∈ rest := by
          intro cont' hmem2
          exact hnd2.1 (List.mem_map.mpr ⟨Entry.file n cont',
            List.mem_filter.mpr ⟨hmem2, rfl⟩, rfl⟩)
        have hpres := copyLoop_preserves_copiedOK s t n cont rest fsm (acc + 1) hnomem hco
        rw [hloop] at hpres
        exact hpres
      · exact ih fsm (acc + 1) c fs' hloop hnd2.2
          (fun n' c' hm2 => by rw [hfindm]; exact hsrc n' c' (List.mem_cons_of_mem _ hm2))
          n cont h1

theorem dirExists_mono_append (fs : FS) (p q : Path) (h : dirExists fs q = true) :
    (fs.dirs ++ [p]).any (fun r => decide (r = q)) = true := by
  rw [List.any_append]
  rw [dirExists] at h
  simp [h]

theorem mkdirOne_mono (fs : FS) (p q : Path) (h : dirExists fs q = true) :
    dirExists (mkdirOne fs p).2 q = true := by
  rw [mkdirOne]
  split
  · exact h
  · split
    · exact h
    · exact dirExists_mono_append fs p q h

theorem mkdirOne_ok_self (fs : FS) (p : Path) (u : Unit) (fs1 : FS)
    (h : mkdirOne fs p = (.ok u, fs1)) : dirExists fs1 p = true := by
  rw [mkdirOne] at h
  split at h
  · rename_i hex
    simp only [Prod.mk.injEq] at h
    rw [← h.2]
    exact hex
  · split at h
    · simp at h
    · simp only [Prod.mk.injEq] at h
      rw [← h.2]
      show (fs.dirs ++ [p]).any (fun r => decide (r = p)) = true
      rw [List.any_append]
      simp

theorem mkdirSeq_ok_dirs (ps : List Path) :
    ∀ (fs : FS) (u : Unit) (fs1 : FS), mkdirSeq fs ps = (.ok u, fs1) →
      (∀ q, dirExists fs q = true → dirExists fs1 q = true) ∧
      (∀ q ∈ ps, dirExists fs1 q = true) := by
  induction ps with
  | nil =>
    intro fs u fs1 h
    simp only [mkdirSeq, Prod.mk.injEq] at h
    rw [← h.2]
    exact ⟨fun q hq => hq, fun q hq => absurd hq (List.not_mem_nil q)⟩
  | cons p rest ih =>
    intro fs u fs1 h
    rw [show mkdirSeq fs (p :: rest) =
      andThen (mkdirOne fs p) (fun _ fsx => mkdirSeq fsx rest) from rfl] at h
    obtain ⟨u0, fsm, hone, hseq⟩ := andThen_eq_ok _ _ _ _ h
    obtain ⟨ihmono, ihall⟩ := ih fsm u fs1 hseq
    have hmono0 : ∀ q, dirExists fs q = true → dirExists fsm q = true := by
      intro q hq
      have := mkdirOne_mono fs p q hq
      rw [hone] at this
      exact this
    have hself : dirExists fsm p = true := mkdirOne_ok_self fs p u0 fsm hone
    refine ⟨fun q hq => ihmono q (hmono0 q hq), fun q hq => ?_⟩
    rcases List.mem_cons.mp hq with h1 | h1
    · rw [h1]
      exact ihmono p hself
    · exact ihall q h1

theorem mkdirParents_ok_dirs (fs : FS) (p : Path) (u : Unit) (fs1 : FS)
    (h : mkdirParents fs p = (.ok u, fs1)) :
    ∀ q ∈ pathPrefixes p, dirExists fs1 q = true :=
  (mkdirSeq_ok_dirs (pathPrefixes p) fs u fs1 h).2

theorem find?_of_keysNodup (l : List FileEntry) (s : Path) (n : String) (f : FileEntry)
    (hk : (l.map (fun g => (g.dir, g.name))).Nodup)
    (hf : f ∈ l) (hd : f.dir = s) (hn : f.name = n) :
    l.find? (fun g => decide (g.dir = s) && decide (g.name = n)) = some f := by
  induction l with
  | nil => cases hf
  | cons g l ih =>
    have hk2 : ¬ (g.dir, g.name) ∈ l.map (fun g => (g.dir, g.name)) ∧
        (l.map (fun g => (g.dir, g.name))).Nodup := by
      simpa [List.nodup_cons] using hk
    by_cases hp : (decide (g.dir = s) && decide (g.name = n)) = true
    · rw [List.find?_cons]
      simp only [hp]
      have hpk : g.dir = s ∧ g.name = n := by
        simpa [Bool.and_eq_true, decide_eq_true_eq] using hp
      rcases List.mem_cons.mp hf with h1 | h1
      · rw [h1]
      · exfalso
        apply hk2.1
        refine List.mem_map.mpr ⟨f, h1, ?_⟩
        rw [hd, hn, hpk.1, hpk.2]
    · have hp2 : (decide (g.dir = s) && decide (g.name = n)) = false :=
        Bool.not_eq_true _ ▸ hp
      rw [List.find?_cons]
      simp only [hp2]
      rcases List.mem_cons.mp hf with h1 | h1
      · exfalso
        apply hp
        rw [h1] at hd hn
        simp [hd, hn]
      · exact ih hk2.2 h1

theorem names_nodup_of_keysNodup (l : List FileEntry) (s : Path) (p : FileEntry → Bool)
    (hk : (l.map (fun g => (g.dir, g.name))).Nodup) :
    (((l.filter (fun f => decide (f.dir = s))).filter p).map (fun f => f.name)).Nodup := by
  have hsub : ((l.filter (fun f => decide (f.dir = s))).filter p).Sublist l :=
    ((List.filter_sublist _).trans (List.filter_sublist l))
  have hk2 : (((l.filter (fun f => decide (f.dir = s))).filter p).map
      (fun g => (g.dir, g.name))).Nodup :=
    (hsub.map _).nodup hk
  have hmapeq : ((l.filter (fun f => decide (f.dir = s))).filter p).map
      (fun g => (g.dir, g.name)) =
      (((l.filter (fun f => decide (f.dir = s))).filter p).map (fun f => f.name)).map
        (fun nm => (s, nm)) := by
    rw [List.map_map]
    refine List.map_congr_left ?_
    intro f hf
    have hfd : f.dir = s := by
      have := (List.mem_filter.mp ((List.mem_filter.mp hf).1)).2
      simpa using this
    simp [Function.comp, hfd]
  rw [hmapeq] at hk2
  exact List.Nodup.of_map _ hk2

theorem charList_lt_irrefl (l : List Char) : ¬ l < l := by
  induction l with
  | nil => intro h; cases h
  | cons a as ih =>
    intro h
    cases h with
    | cons h => exact ih h
    | rel h => exact lt_irrefl a h

theorem charList_cons_lt_iff (a b : Char) (as bs : List Char) :
    (a :: as) < (b :: bs) ↔ a < b ∨ (a = b ∧ as < bs) := by
  constructor
  · intro h
    cases h with
    | cons h => exact Or.inr ⟨rfl, h⟩
    | rel h => exact Or.inl h
  · intro h
    rcases h with h | ⟨h1, h2⟩
    · exact List.Lex.rel h
    · rw [h1]
      exact List.Lex.cons h2

theorem append_lt_iff (x : List Char) :
    ∀ (y s t : List Char), x.length = y.length →
      (x ++ s < y ++ t ↔ x < y ∨ (x = y ∧ s < t)) := by
  induction x with
  | nil =>
    intro y s t hl
    have hy : y = [] := by
      cases y with
      | nil => rfl
      | cons b bs => simp at hl
    rw [hy]
    simp only [List.nil_append]
    constructor
    · intro h
      exact Or.inr ⟨by trivial, h⟩
    · intro h
      rcases h with h | ⟨-, h⟩
      · exact absurd h (charList_lt_irrefl [])
      · exact h
  | cons a as ih =>
    intro y s t hl
    cases y with
    | nil => simp at hl
    | cons b bs =>
      have hl2 : as.length = bs.length := by simpa using hl
      rw [List.cons_append, List.cons_append, charList_cons_lt_iff, charList_cons_lt_iff,
        ih bs s t hl2]
      constructor
      · rintro (h | ⟨h1, h2 | ⟨h3, h4⟩⟩)
        · exact Or.inl (Or.inl h)
        · exact Or.inl (Or.inr ⟨h1, h2⟩)
        · exact Or.inr ⟨by rw [h1, h3], h4⟩
      · rintro ((h | ⟨h1, h2⟩) | ⟨h1, h2⟩)
        · exact Or.inl h
        · exact Or.inr ⟨h1, Or.inl h2⟩
        · injection h1 with e1 e2
          exact Or.inr ⟨e1, Or.inr ⟨e2, h2⟩⟩

theorem digitChar_lt_iff : ∀ a < 10, ∀ b < 10, (digitChar a < digitChar b ↔ a < b) := by
  decide

theorem digitChar_inj : ∀ a < 10, ∀ b < 10, (digitChar a = digitChar b ↔ a = b) := by
  decide

theorem padDigits_length (w : Nat) : ∀ n, (padDigits w n).length = w := by
  induction w with
  | zero => intro n; rfl
  | succ w ih =>
    intro n
    show (digitChar (n / 10 ^ w) :: padDigits w (n % 10 ^ w)).length = w + 1
    rw [List.length_cons, ih]

theorem divmod_lt_iff (k a b : Nat) (hk : 0 < k) :
    a < b ↔ (a / k < b / k ∨ (a / k = b / k ∧ a % k < b % k)) := by
  have e1 := Nat.div_add_mod a k
  have e2 := Nat.div_add_mod b k
  constructor
  · intro h
    rcases lt_trichotomy (a / k) (b / k) with h1 | h1 | h1
    · exact Or.inl h1
    · refine Or.inr ⟨h1, ?_⟩
      have e3 : k * (a / k) = k * (b / k) := by rw [h1]
      omega
    · have h4 : a / k ≤ b / k := Nat.div_le_div_right (Nat.le_of_lt h)
      omega
  · intro h
    rcases h with h1 | ⟨h1, h2⟩
    · calc a < k * (a / k) + k := by have := Nat.mod_lt a hk; omega
        _ = k * (a / k + 1) := by ring
        _ ≤ k * (b / k) := Nat.mul_le_mul_left k h1
        _ ≤ b := by omega
    · have e3 : k * (a / k) = k * (b / k) := by rw [h1]
      omega

theorem padDigits_lt_iff (w : Nat) : ∀ a < 10 ^ w, ∀ b < 10 ^ w,
    (padDigits w a < padDigits w b ↔ a < b) := by
  induction w with
  | zero =>
    intro a ha b hb
    have ha0 : a = 0 := by omega
    have hb0 : b = 0 := by omega
    subst ha0
    subst hb0
    exact iff_of_false (charList_lt_irrefl _) (by omega)
  | succ w ih =>
    intro a ha b hb
    have hp : 0 < 10 ^ w := Nat.pos_pow_of_pos w (by omega)
    have hpow : 10 ^ (w + 1) = 10 ^ w * 10 := pow_succ 10 w
    have hda : a / 10 ^ w < 10 := by
      rw [Nat.div_lt_iff_lt_mul hp]
      omega
    have hdb : b / 10 ^ w < 10 := by
      rw [Nat.div_lt_iff_lt_mul hp]
      omega
    show digitChar (a / 10 ^ w) :: padDigits w (a % 10 ^ w) <
      digitChar (b / 10 ^ w) :: padDigits w (b % 10 ^ w) ↔ a < b
    rw [charList_cons_lt_iff, digitChar_lt_iff _ hda _ hdb, digitChar_inj _ hda _ hdb,
      ih _ (Nat.mod_lt a hp) _ (Nat.mod_lt b hp)]
    exact (divmod_lt_iff (10 ^ w) a b hp).symm

theorem padDigits_inj_iff (w : Nat) : ∀ a < 10 ^ w, ∀ b < 10 ^ w,
    (padDigits w a = padDigits w b ↔ a = b) := by
  induction w with
  | zero =>
    intro a ha b hb
    have ha0 : a = 0 := by omega
    have hb0 : b = 0 := by omega
    subst ha0
    subst hb0
    simp [padDigits]
  | succ w ih =>
    intro a ha b hb
    have hp : 0 < 10 ^ w := Nat.pos_pow_of_pos w (by omega)
    have hpow : 10 ^ (w + 1) = 10 ^ w * 10 := pow_succ 10 w
    have hda : a / 10 ^ w < 10 := by
      rw [Nat.div_lt_iff_lt_mul hp]
      omega
    have hdb : b / 10 ^ w < 10 := by
      rw [Nat.div_lt_iff_lt_mul hp]
      omega
    show (digitChar (a / 10 ^ w) :: padDigits w (a % 10 ^ w) =
      digitChar (b / 10 ^ w) :: padDigits w (b % 10 ^ w)) ↔ a = b
    rw [List.cons.injEq, digitChar_inj _ hda _ hdb,
      ih _ (Nat.mod_lt a hp) _ (Nat.mod_lt b hp)]
    constructor
    · intro h
      have e3 : 10 ^ w * (a / 10 ^ w) = 10 ^ w * (b / 10 ^ w) := by rw [h.1]
      have e1 := Nat.div_add_mod a (10 ^ w)
      have e2 := Nat.div_add_mod b (10 ^ w)
      omega
    · intro h
      rw [h]
      exact ⟨rfl, rfl⟩

theorem strftime_sortable (t1 t2 : Timestamp) (h1 : validTs t1) (h2 : validTs t2) :
    (strftimeYmdHMS t1 < strftimeYmdHMS t2 ↔ tsKey t1 < tsKey t2) := by
  obtain ⟨hy1, hmo1, hd1, hh1, hmi1, hs1⟩ := h1
  obtain ⟨hy2, hmo2, hd2, hh2, hmi2, hs2⟩ := h2
  rw [String.lt_iff_toList_lt]
  show padDigits 4 t1.year ++ padDigits 2 t1.month ++ padDigits 2 t1.day ++ ['-']
      ++ padDigits 2 t1.hour ++ padDigits 2 t1.minute ++ padDigits 2 t1.second <
    padDigits 4 t2.year ++ padDigits 2 t2.month ++ padDigits 2 t2.day ++ ['-']
      ++ padDigits 2 t2.hour ++ padDigits 2 t2.minute ++ padDigits 2 t2.second ↔
    tsKey t1 < tsKey t2
  simp only [List.append_assoc]
  rw [append_lt_iff _ _ _ _ (by rw [padDigits_length, padDigits_length]),
    append_lt_iff _ _ _ _ (by rw [padDigits_length, padDigits_length]),
    append_lt_iff _ _ _ _ (by rw [padDigits_length, padDigits_length]),
    show (['-'] : List Char) ++ (padDigits 2 t1.hour ++ (padDigits 2 t1.minute
      ++ padDigits 2 t1.second)) = '-' :: (padDigits 2 t1.hour ++ (padDigits 2 t1.minute
      ++ padDigits 2 t1.second)) from rfl,
    show (['-'] : List Char) ++ (padDigits 2 t2.hour ++ (padDigits 2 t2.minute
      ++ padDigits 2 t2.second)) = '-' :: (padDigits 2 t2.hour ++ (padDigits 2 t2.minute
      ++ padDigits 2 t2.second)) from rfl,
    charList_cons_lt_iff,
    append_lt_iff _ _ _ _ (by rw [padDigits_length, padDigits_length]),
    append_lt_iff _ _ _ _ (by rw [padDigits_length, padDigits_length])]
  have hy : 10000 = 10 ^ 4 := by norm_num
  have hc : 100 = 10 ^ 2 := by norm_num
  rw [hy] at hy1 hy2
  rw [hc] at hmo1 hmo2 hd1 hd2 hh1 hh2 hmi1 hmi2 hs1 hs2
  rw [padDigits_lt_iff 4 _ hy1 _ hy2, padDigits_inj_iff 4 _ hy1 _ hy2,
    padDigits_lt_iff 2 _ hmo1 _ hmo2, padDigits_inj_iff 2 _ hmo1 _ hmo2,
    padDigits_lt_iff 2 _ hd1 _ hd2, padDigits_inj_iff 2 _ hd1 _ hd2,
    padDigits_lt_iff 2 _ hh1 _ hh2, padDigits_inj_iff 2 _ hh1 _ hh2,
    padDigits_lt_iff 2 _ hmi1 _ hmi2, padDigits_inj_iff 2 _ hmi1 _ hmi2,
    padDigits_lt_iff 2 _ hs1 _ hs2]
  rw [tsKey, tsKey]
  constructor
  · rintro (h | ⟨e, h | ⟨e2, h | ⟨e3, (hdash | ⟨-, h⟩)⟩⟩⟩)
    · omega
    · omega
    · omega
    · exact absurd hdash (lt_irrefl _)
    · rcases h with h | ⟨e4, h | ⟨e5, h⟩⟩
      · omega
      · omega
      · omega
  · intro h
    rcases Nat.lt_trichotomy t1.year t2.year with hx | hx | hx
    · exact Or.inl hx
    · rcases Nat.lt_trichotomy t1.month t2.month with hx2 | hx2 | hx2
      · exact Or.inr ⟨hx, Or.inl hx2⟩
      · rcases Nat.lt_trichotomy t1.day t2.day with hx3 | hx3 | hx3
        · exact Or.inr ⟨hx, Or.inr ⟨hx2, Or.inl hx3⟩⟩
        · rcases Nat.lt_trichotomy t1.hour t2.hour with hx4 | hx4 | hx4
          · exact Or.inr ⟨hx, Or.inr ⟨hx2, Or.inr ⟨hx3, Or.inr ⟨rfl, Or.inl hx4⟩⟩⟩⟩
          · rcases Nat.lt_trichotomy t1.minute t2.minute with hx5 | hx5 | hx5
            · exact Or.inr ⟨hx, Or.inr ⟨hx2, Or.inr ⟨hx3,
                Or.inr ⟨rfl, Or.inr ⟨hx4, Or.inl hx5⟩⟩⟩⟩⟩
            · have hx6 : t1.second < t2.second := by omega
              exact Or.inr ⟨hx, Or.inr ⟨hx2, Or.inr ⟨hx3,
                Or.inr ⟨rfl, Or.inr ⟨hx4, Or.inr ⟨hx5, hx6⟩⟩⟩⟩⟩⟩
            · exact absurd h (by omega)
          · exact absurd h (by omega)
        · exact absurd h (by omega)
      · exact absurd h (by omega)
    · exact absurd h (by omega)

theorem dirExists_of_mem (fs : FS) (q : Path) (h : q ∈ fs.dirs) : dirExists fs q = true := by
  rw [dirExists, List.any_eq_true]
  exact ⟨q, h, by simp⟩

theorem mem_of_dirExists (fs : FS) (q : Path) (h : dirExists fs q = true) : q ∈ fs.dirs := by
  rw [dirExists, List.any_eq_true] at h
  obtain ⟨x, hx, he⟩ := h
  rw [decide_eq_true_eq] at he
  rw [← he]
  exact hx

theorem backup_none_iff (fs : FS) (p : Path) (now : Timestamp) :
    ((backup_existing_files fs p now).1 = .ok none ↔
      (dirExists fs p = false ∨ hasChild fs p = false)) := by
  rw [backup_existing_files]
  split
  · rename_i hcond
    refine iff_of_true rfl ?_
    simpa using hcond
  · rename_i hcond
    refine iff_of_false ?_ ?_
    · rcases hct : copytree fs p (p.dropLast ++ [backupName p now]) with ⟨rc, fsc⟩
      cases rc with
      | ok u => simp [andThen]
      | exn e => simp [andThen]
    · intro hcontr
      apply hcond
      rcases hcontr with h | h
      · rw [h]
        simp
      · rw [h]
        simp

theorem backup_ok_some (fs : FS) (p : Path) (now : Timestamp) (b : Path) (fs' : FS)
    (h : backup_existing_files fs p now = (.ok (some b), fs')) :
    b = p.dropLast ++ [backupName p now] ∧
    dirExists fs' b = true ∧
    (∀ q ∈ fs.dirs, isUnder p q = true → dirExists fs' (rebase p b q) = true) ∧
    (∀ f ∈ fs.files, isUnder p f.dir = true →
      (⟨rebase p b f.dir, f.name, f.content⟩ : FileEntry) ∈ fs'.files) ∧
    (∀ f ∈ fs.files, f ∈ fs'.files) := by
  rw [backup_existing_files] at h
  split at h
  · simp at h
  · rename_i hcond
    have hdir : dirExists fs p = true := by
      rcases hde : dirExists fs p with - | -
      · exact absurd (by rw [hde]; simp) hcond
      · rfl
    obtain ⟨u, fsc, hct, hk⟩ := andThen_eq_ok _ _ _ _ h
    simp only [Prod.mk.injEq, Res.ok.injEq, Option.some.injEq] at hk
    obtain ⟨hb, hfs⟩ := hk
    subst hfs
    rw [copytree] at hct
    split at hct
    · simp at hct
    · split at hct
      · simp at hct
      · simp only [Prod.mk.injEq] at hct
        obtain ⟨-, hbig⟩ := hct
        rw [← hb]
        refine ⟨rfl, ?_, ?_, ?_, ?_⟩
        · have hmem : p ∈ fs.dirs := mem_of_dirExists fs p hdir
          have hiu : isUnder p p = true := by
            rw [isUnder, decide_eq_true_eq]
            exact List.take_length p
          have : rebase p (p.dropLast ++ [backupName p now]) p =
              p.dropLast ++ [backupName p now] := by
            rw [rebase, List.drop_length, List.append_nil]
          rw [← this]
          apply dirExists_of_mem
          rw [← hbig]
          refine List.mem_append_right _ (List.mem_filterMap.mpr ⟨p, hmem, ?_⟩)
          rw [if_pos hiu]
        · intro q hq hiu
          apply dirExists_of_mem
          rw [← hbig]
          refine List.mem_append_right _ (List.mem_filterMap.mpr ⟨q, hq, ?_⟩)
          rw [if_pos hiu]
        · intro f hf hiu
          rw [← hbig]
          refine List.mem_append_right _ (List.mem_filterMap.mpr ⟨f, hf, ?_⟩)
          rw [if_pos hiu]
        · intro f hf
          rw [← hbig]
          exact List.mem_append_left _ hf

/-! ### Claim theorems -/

/-- C3.  Scenario postcondition: for language `"python"`, with a source
catalog of 5 command files, 3 shared agent files, 4 python agent files,
2 rule files and the registry present, the plan is `(5, 3, 4, 2)`, and
installing to an empty target yields `commands_installed = 5`,
`agents_installed = 7`, `rules_installed = 2`, `success = true`, no
errors (and no warnings), with `index.json` present in the agents target
directory. -/
theorem install_scenario_python :
    count_files fsC3 "python" = (5, 3, 4, 2) ∧
    (install_to_agent fsC3 "claude-code" "python" tsS).1 =
      .ok (⟨5, 7, 2, true, []⟩, []) ∧
    fileExists (install_to_agent fsC3 "claude-code" "python" tsS).2
      (fsC3.home ++ [".claude", "agents"]) "index.json" = true :=
  ⟨by decide, by decide, by decide⟩

/-- C7.  If the source commands directory does not exist,
`install_to_agent` records a fatal error and stops before any
destructive step: the result is `InstallationResult 0 0 0 false` with a
non-empty error list, and the filesystem is returned unchanged (no
directory created, no backup, no copy). -/
theorem install_missing_commands_aborts_early (fs : FS) (agent language : String)
    (now : Timestamp) (ct at1 rt : Path)
    (h1 : lookupDir (AGENT_DIRS fs) agent = some ct)
    (h2 : lookupDir (AGENT_AGENT_DIRS fs) agent = some at1)
    (h3 : lookupDir (AGENT_RULES_DIRS fs) agent = some rt)
    (h : dirExists fs (fs.cwd ++ ["commands"]) = false) :
    install_to_agent fs agent language now =
      (.ok (⟨0, 0, 0, false,
        ["Commands directory not found: " ++ pathStr (fs.cwd ++ ["commands"])]⟩, []), fs) := by
  simp [install_to_agent, h1, h2, h3, installCore, get_source_dirs, h]

/-- Witness for C7 at a concrete snapshot with no commands directory. -/
theorem install_missing_commands_aborts_early_witness :
    dirExists fsC7 (fsC7.cwd ++ ["commands"]) = false ∧
    install_to_agent fsC7 "claude-code" "python" tsS =
      (.ok (⟨0, 0, 0, false,
        ["Commands directory not found: " ++ pathStr (fsC7.cwd ++ ["commands"])]⟩, []), fsC7) :=
  ⟨rfl, install_missing_commands_aborts_early fsC7 "claude-code" "python" tsS _ _ _
    rfl rfl rfl rfl⟩

/-- C8.  Planning is idempotent and deterministic: two calls of
`count_files` against the same unchanged filesystem snapshot yield the
same four counts.  In the embedding `count_files` is a pure function of
the snapshot — faithful to the code, which only reads the filesystem —
so the two calls are literally the same value. -/
theorem count_files_idempotent (fs : FS) (language : String) :
    count_files fs language = count_files fs language := rfl

/-- C9.  Language independence of every category except LanguageAgent:
for a fixed snapshot, the command count, shared-agent count and rule
count agree across any two languages; only the language-agent component
reads the language. -/
theorem count_files_language_independent (fs : FS) (l1 l2 : String) :
    (count_files fs l1).1 = (count_files fs l2).1 ∧
    (count_files fs l1).2.1 = (count_files fs l2).2.1 ∧
    (count_files fs l1).2.2.2 = (count_files fs l2).2.2.2 :=
  ⟨rfl, rfl, rfl⟩

/-- C4.  An `InstallationResult`'s `success` flag is true iff its error
list is empty; and reconciliation mismatches surface as warnings only:
at a snapshot where the commands glob counts a subdirectory named
`bogus.md` that `copy_files` skips, the run yields a Commands mismatch
warning while the error list stays empty and `success` stays true. -/
theorem success_iff_errors_empty_and_mismatch_warns :
    (∀ (fs : FS) (agent language : String) (now : Timestamp) (r : InstallationResult)
      (w : List String),
      (install_to_agent fs agent language now).1 = .ok (r, w) →
      (r.success = true ↔ r.errors = [])) ∧
    (install_to_agent fsC4 "claude-code" "python" tsS).1 =
      .ok (⟨5, 7, 2, true, []⟩, [mismatchWarning "Commands" 6 5]) := by
  constructor
  · intro fs agent language now r w h
    have h2 : install_to_agent fs agent language now =
        (.ok (r, w), (install_to_agent fs agent language now).2) := by
      rw [← h]
    rw [install_to_agent] at h2
    split at h2
    · exact installCore_ok_success_iff _ _ _ _ _ _ _ _ _ h2
    · simp at h2
  · decide

/-- Witness for C4, discharging its hypothesis at the healthy concrete
scenario snapshot. -/
theorem success_iff_errors_empty_and_mismatch_warns_witness :
    (install_to_agent fsC3 "claude-code" "python" tsS).1 = .ok (⟨5, 7, 2, true, []⟩, []) ∧
    ((⟨5, 7, 2, true, []⟩ : InstallationResult).success = true ↔
      (⟨5, 7, 2, true, []⟩ : InstallationResult).errors = []) :=
  ⟨by decide, success_iff_errors_empty_and_mismatch_warns.1 fsC3 "claude-code" "python" tsS
    ⟨5, 7, 2, true, []⟩ [] (by decide)⟩

/-- C1 counterexample.  With one unwritable agents directory among two
targets, the multi-target run does not complete with per-target results:
the permission error escapes `install_to_agent` and aborts the loop —
even though the sibling target alone would install with success. -/
theorem multi_target_raise_counterexample :
    (installAllDetected fsC1 ["claude-code", "droid"] "python" tsS).1 =
      .exn "PermissionError" ∧
    (install_to_agent fsC1 "droid" "python" tsS).1 = .ok (⟨1, 1, 0, true, []⟩, []) :=
  ⟨by decide, by decide⟩

/-- C1 amended.  A fatal per-target error raised while installing one
target (e.g. an unwritable agents directory) propagates out of the
multi-target loop and aborts the remaining sibling targets; no
`success = false` result is produced for the failed target. -/
theorem per_target_exception_aborts_siblings (fs : FS) (a : String) (rest : List String)
    (language : String) (now : Timestamp) (e : String) (fs' : FS)
    (h : install_to_agent fs a language now = (.exn e, fs')) :
    installAllDetected fs (a :: rest) language now = (.exn e, fs') := by
  simp [installAllDetected, h, andThen]

/-- Witness for the amended C1 at the concrete two-target snapshot. -/
theorem per_target_exception_aborts_siblings_witness :
    install_to_agent fsC1 "claude-code" "python" tsS = (.exn "PermissionError", fsC1x) ∧
    installAllDetected fsC1 ["claude-code", "droid"] "python" tsS =
      (.exn "PermissionError", fsC1x) :=
  ⟨by decide, per_target_exception_aborts_siblings fsC1 "claude-code" ["droid"] "python" tsS
    "PermissionError" fsC1x (by decide)⟩

/-- C2 counterexample.  When creating the backup copy fails (unwritable
parent directory), no `InstallationResult` records the failure: the
permission error escapes `install_to_agent` instead of coming back as a
`success = false` result — the returned snapshot shows nothing was
overwritten. -/
theorem backup_failure_raises_counterexample :
    install_to_agent fsC2 "claude-code" "python" tsS = (.exn "PermissionError", fsC2) := by
  decide

/-- C2 amended.  If the backup copy fails, installation of that target is
aborted before any overwrite — the run ends with the file contents it
started with — but the failure propagates as an exception; no
`InstallationResult` is returned and no error list records it. -/
theorem backup_failure_aborts_target_before_overwrite (fs : FS) (agent language : String)
    (now : Timestamp) (ct at1 rt : Path)
    (h1 : lookupDir (AGENT_DIRS fs) agent = some ct)
    (h2 : lookupDir (AGENT_AGENT_DIRS fs) agent = some at1)
    (h3 : lookupDir (AGENT_RULES_DIRS fs) agent = some rt)
    (hsrc : dirExists fs (fs.cwd ++ ["commands"]) = true)
    (fs1 fs2 fs3 : FS)
    (hm1 : mkdirParents fs ct = (.ok (), fs1))
    (hm2 : mkdirParents fs1 at1 = (.ok (), fs2))
    (hm3 : mkdirParents fs2 rt = (.ok (), fs3))
    (e : String) (fs4 : FS)
    (hb : backup_existing_files fs3 ct now = (.exn e, fs4)) :
    install_to_agent fs agent language now = (.exn e, fs4) ∧ fs4.files = fs.files := by
  have e1 := mkdirParents_files fs ct
  rw [hm1] at e1
  have e2 := mkdirParents_files fs1 at1
  rw [hm2] at e2
  have e3 := mkdirParents_files fs2 rt
  rw [hm3] at e3
  have e4 := backup_exn_frame fs3 ct now e fs4 hb
  constructor
  · simp only [install_to_agent, h1, h2, h3]
    rw [installCore]
    simp only [get_source_dirs, hsrc, Bool.not_true, Bool.false_eq_true, if_false, hm1,
      andThen, hm2, hm3, hb]
  · rw [e4, e3, e2, e1]

/-- Witness for the amended C2 at the concrete unwritable-parent
snapshot. -/
theorem backup_failure_aborts_target_before_overwrite_witness :
    dirExists fsC2 (fsC2.cwd ++ ["commands"]) = true ∧
    mkdirParents fsC2 (fsC2.home ++ [".claude", "commands"]) = (.ok (), fsC2) ∧
    backup_existing_files fsC2 (fsC2.home ++ [".claude", "commands"]) tsS =
      (.exn "PermissionError", fsC2) ∧
    install_to_agent fsC2 "claude-code" "python" tsS = (.exn "PermissionError", fsC2) ∧
    fsC2.files = fsC2.files :=
  ⟨by decide, by decide, by decide,
    backup_failure_aborts_target_before_overwrite fsC2 "claude-code" "python" tsS
      (fsC2.home ++ [".claude", "commands"]) (fsC2.home ++ [".claude", "agents"])
      (fsC2.home ++ [".claude", "rules"]) rfl rfl rfl rfl fsC2 fsC2 fsC2
      (by decide) (by decide) (by decide) "PermissionError" fsC2 (by decide)⟩

/-- C6.  Contract of `copy_files`: when the source directory does not
exist the call returns 0 with the filesystem untouched; otherwise (for a
well-formed snapshot with unique directory-plus-name file keys and a
target distinct from the source) a successful call creates the target
directory and all its ancestors, copies every matching regular file into
the target — silently overwriting an existing file of the same name, so
afterwards the target holds exactly the source content for that name —
and returns the number of files copied. -/
theorem copy_files_contract :
    (∀ (fs : FS) (s t : Path) (pat : String),
      dirExists fs s = false → copy_files fs s t pat = (.ok 0, fs)) ∧
    (∀ (fs : FS) (s t : Path) (pat : String) (c : Nat) (fs' : FS),
      (fs.files.map (fun f => (f.dir, f.name))).Nodup →
      s ≠ t →
      dirExists fs s = true →
      copy_files fs s t pat = (.ok c, fs') →
      c = (matchingFiles fs s pat).length ∧
      (∀ q ∈ pathPrefixes t, dirExists fs' q = true) ∧
      (∀ n cont, Entry.file n cont ∈ matchingFiles fs s pat →
        (⟨t, n, cont⟩ : FileEntry) ∈ fs'.files ∧
        ∀ g ∈ fs'.files, g.dir = t → g.name = n → g.content = cont)) := by
  constructor
  · intro fs s t pat h
    simp [copy_files, h]
  · intro fs s t pat c fs' hkeys hst hsrc h
    rw [copy_files] at h
    simp only [hsrc, Bool.not_true, Bool.false_eq_true, if_false] at h
    obtain ⟨u, fs1, hmk, hloop⟩ := andThen_eq_ok _ _ _ _ h
    have hfiles1 : fs1.files = fs.files := by
      have hx := mkdirParents_files fs t
      rw [hmk] at hx
      exact hx
    have hmf : matchingFiles fs1 s pat = matchingFiles fs s pat := by
      rw [matchingFiles_eq, matchingFiles_eq]
      unfold srcMatching
      rw [hfiles1]
    refine ⟨?_, ?_, ?_⟩
    · have hc := copyLoop_count s t (globList fs1 s pat) fs1 0 c fs' hloop
      rw [show (globList fs1 s pat).filter isFileEntry = matchingFiles fs1 s pat from rfl,
        hmf] at hc
      simpa using hc
    · intro q hq
      have h1 : dirExists fs1 q = true := mkdirParents_ok_dirs fs t u fs1 hmk q hq
      have hd := copyLoop_dirs s t (globList fs1 s pat) fs1 0
      rw [hloop] at hd
      rw [dirExists] at h1 ⊢
      rw [hd]
      exact h1
    · intro n cont hmem
      have hmem1 : Entry.file n cont ∈ matchingFiles fs1 s pat := by rw [hmf]; exact hmem
      have hmemg : Entry.file n cont ∈ globList fs1 s pat :=
        (List.mem_filter.mp hmem1).1
      have hnd : ((globList fs1 s pat |>.filter isFileEntry).map entryName).Nodup := by
        rw [show (globList fs1 s pat).filter isFileEntry = matchingFiles fs1 s pat from rfl,
          matchingFiles_eq]
        rw [List.map_map]
        have hsm : srcMatching fs1 s pat =
            (fs.files.filter (fun f => decide (f.dir = s))).filter
              (fun f => matchGlob pat f.name) := by
          unfold srcMatching
          rw [hfiles1]
        rw [hsm]
        exact names_nodup_of_keysNodup fs.files s (fun f => matchGlob pat f.name) hkeys
      have hfind : ∀ n' cont', Entry.file n' cont' ∈ globList fs1 s pat →
          findFile fs1 s n' = some ⟨s, n', cont'⟩ := by
        intro n' cont' hg
        have hm1 : Entry.file n' cont' ∈ matchingFiles fs1 s pat :=
          List.mem_filter.mpr ⟨hg, rfl⟩
        rw [matchingFiles_eq] at hm1
        obtain ⟨f, hfmem, hfeq⟩ := List.mem_map.mp hm1
        injection hfeq with e1 e2
        have hfd : f.dir = s := by
          have := (List.mem_filter.mp (List.mem_filter.mp hfmem).1).2
          simpa using this
        have hffs : f ∈ fs1.files :=
          (List.mem_filter.mp (List.mem_filter.mp hfmem).1).1
        have hk1 : (fs1.files.map (fun g => (g.dir, g.name))).Nodup := by
          rw [hfiles1]
          exact hkeys
        have := find?_of_keysNodup fs1.files s n' f hk1 hffs hfd e1
        rw [show findFile fs1 s n' = fs1.files.find?
          (fun g => decide (g.dir = s) && decide (g.name = n')) from rfl, this]
        congr 1
        cases f
        simp only at e1 e2 hfd
        rw [e1, e2, hfd]
      exact copyLoop_copies s t hst (globList fs1 s pat) fs1 0 c fs' hloop hnd hfind
        n cont hmemg

/-- Witness for C6, instantiating both halves is not needed: the second
half is discharged at the concrete scenario catalog. -/
theorem copy_files_contract_witness :
    (fsC3.files.map (fun f => (f.dir, f.name))).Nodup ∧
    (["repo", "commands"] : Path) ≠ ["home", "t"] ∧
    dirExists fsC3 ["repo", "commands"] = true ∧
    copy_files fsC3 ["repo", "commands"] ["home", "t"] "*.md" = (.ok 5, fsC6x) ∧
    (5 = (matchingFiles fsC3 ["repo", "commands"] "*.md").length ∧
      (∀ q ∈ pathPrefixes ["home", "t"], dirExists fsC6x q = true) ∧
      (∀ n cont, Entry.file n cont ∈ matchingFiles fsC3 ["repo", "commands"] "*.md" →
        (⟨["home", "t"], n, cont⟩ : FileEntry) ∈ fsC6x.files ∧
        ∀ g ∈ fsC6x.files, g.dir = ["home", "t"] → g.name = n → g.content = cont)) :=
  ⟨by decide, by decide, by decide, by decide,
    copy_files_contract.2 fsC3 ["repo", "commands"] ["home", "t"] "*.md" 5 fsC6x
      (by decide) (by decide) (by decide) (by decide)⟩

/-- C5.  Contract of `backup_existing_files`: it returns "no backup
taken" exactly when the target directory does not exist or is empty;
otherwise a successful call produces a full recursive copy of the
directory (every subdirectory and file reappears, rebased, and the
original tree is untouched) at the sibling path
`<name>.backup.<timestamp>`; and the timestamp format `YYYYMMDD-HHMMSS`
has second resolution and is sortable: string order of two formatted
valid timestamps coincides with chronological order. -/
theorem backup_contract :
    (∀ (fs : FS) (p : Path) (now : Timestamp),
      ((backup_existing_files fs p now).1 = .ok none ↔
        (dirExists fs p = false ∨ hasChild fs p = false))) ∧
    (∀ (fs : FS) (p : Path) (now : Timestamp) (b : Path) (fs' : FS),
      backup_existing_files fs p now = (.ok (some b), fs') →
      b = p.dropLast ++ [backupName p now] ∧
      dirExists fs' b = true ∧
      (∀ q ∈ fs.dirs, isUnder p q = true → dirExists fs' (rebase p b q) = true) ∧
      (∀ f ∈ fs.files, isUnder p f.dir = true →
        (⟨rebase p b f.dir, f.name, f.content⟩ : FileEntry) ∈ fs'.files) ∧
      (∀ f ∈ fs.files, f ∈ fs'.files)) ∧
    (∀ t1 t2 : Timestamp, validTs t1 → validTs t2 →
      (strftimeYmdHMS t1 < strftimeYmdHMS t2 ↔ tsKey t1 < tsKey t2)) :=
  ⟨backup_none_iff, backup_ok_some, strftime_sortable⟩

/-- Witness for C5: the no-backup case, a concrete successful backup of
the scenario catalog, and the sortable format at two concrete instants
one second apart. -/
theorem backup_contract_witness :
    ((backup_existing_files fsC7 ["home", "missing"] tsS).1 = .ok none ↔
      (dirExists fsC7 ["home", "missing"] = false ∨
        hasChild fsC7 ["home", "missing"] = false)) ∧
    backup_existing_files fsC3 ["repo", "commands"] tsS = (.ok (some bC5), fsC5x) ∧
    (bC5 = (["repo", "commands"] : Path).dropLast ++
        [backupName ["repo", "commands"] tsS] ∧
      dirExists fsC5x bC5 = true ∧
      (∀ q ∈ fsC3.dirs, isUnder ["repo", "commands"] q = true →
        dirExists fsC5x (rebase ["repo", "commands"] bC5 q) = true) ∧
      (∀ f ∈ fsC3.files, isUnder ["repo", "commands"] f.dir = true →
        (⟨rebase ["repo", "commands"] bC5 f.dir, f.name, f.content⟩ : FileEntry) ∈
          fsC5x.files) ∧
      (∀ f ∈ fsC3.files, f ∈ fsC5x.files)) ∧
    validTs tsS ∧ validTs tsT ∧
    (strftimeYmdHMS tsS < strftimeYmdHMS tsT ↔ tsKey tsS < tsKey tsT) :=
  ⟨backup_contract.1 fsC7 ["home", "missing"] tsS,
    by decide,
    backup_contract.2.1 fsC3 ["repo", "commands"] tsS bC5 fsC5x (by decide),
    by decide, by decide,
    backup_contract.2.2 tsS tsT (by decide) (by decide)⟩

/-- C10.  Frame property of `copy_files` with a missing source directory:
it returns count 0 and the very same filesystem — in particular the
target directory and its ancestors are not created, since the
missing-source check precedes the mkdir call. -/
theorem copy_files_missing_source_frame (fs : FS) (sourceDir targetDir : Path) (pat : String)
    (h : dirExists fs sourceDir = false) :
    copy_files fs sourceDir targetDir pat = (.ok 0, fs) := by
  simp [copy_files, h]

/-- Witness for C10 at a concrete snapshot. -/
theorem copy_files_missing_source_frame_witness :
    dirExists fsC7 ["repo", "nosuch"] = false ∧
    copy_files fsC7 ["repo", "nosuch"] ["home", "t"] "*.md" = (.ok 0, fsC7) :=
  ⟨rfl, copy_files_missing_source_frame fsC7 ["repo", "nosuch"] ["home", "t"] "*.md" rfl⟩

end SageDev
